import Mathlib

/-!
A shallow embedding, in Lean 4, of the `wintray` package (nathan-osman/go-wintray),
together with proofs of the behavioural properties of its actor-based design.

Strings are modelled as their UTF-16 code-unit sequences (`List Nat`); a valid Go
string contains no interior NUL byte, so the encoded input contains no `0` unit
(`syscall.UTF16FromString` rejects interior NULs, and `mustUTF16FromString` aborts
in that case).  Fixed-capacity `[N]uint16` fields of the native structures are
`List Nat` values of the corresponding length.  Native platform calls
(`Shell_NotifyIcon`, `AppendMenuW`, `LoadImage`, `os.CreateTemp`) are external
collaborators; their outcomes are supplied by an `Oracle` value, and the calls the
code issues are recorded in an event trace.
-/

namespace WinTray

/-- `syscall.UTF16FromString` encodes a Go string and appends a terminating NUL
code unit.  The input is already the UTF-16 encoding of the string. -/
def utf16FromString (t : List Nat) : List Nat := t ++ [0]

/-- A bounds-checked write into a fixed-capacity buffer.  `reflect.Value.Index i`
panics when `i` is out of range; the panic is modelled by `none`. -/
def setChecked (l : List Nat) (i v : Nat) : Option (List Nat) :=
  if i < l.length then some (l.set i v) else none

/-- The loop of `copyToUint16Buffer` (wintray.go, error-reporting revision,
lines 86–98): for each indexed code unit of `mustUTF16FromString text`, if the
index has reached the buffer capacity, write a terminator at the previous index
and stop; otherwise write the unit at the index. -/
def copyLoop (buff : List Nat) (i : Nat) : List Nat → Option (List Nat)
  | [] => some buff
  | v :: rest =>
    if i = buff.length then
      setChecked buff (i - 1) 0
    else
      match setChecked buff i v with
      | some b => copyLoop b (i + 1) rest
      | none => none

/-- `copyToUint16Buffer(buff, text)`: copy the NUL-terminated UTF-16 encoding of
`text` into the fixed-capacity buffer `buff`, truncating at capacity. -/
def copyToUint16Buffer (buff text : List Nat) : Option (List Nat) :=
  copyLoop buff 0 (utf16FromString text)

/-- The string a fixed-capacity UTF-16 field stores: the code units before the
first NUL terminator. -/
def bufferString (l : List Nat) : List Nat := l.takeWhile (· ≠ 0)

/-- The `[N]uint16` text fields, `HICON` and flag fields of the native
`win.NOTIFYICONDATA` value that the marshaling operations populate.  Field
capacities match the Win32 layout: `SzTip [128]uint16`, `SzInfo [256]uint16`,
`SzInfoTitle [64]uint16`. -/
structure NOTIFYICONDATA where
  uFlags : Nat
  hIcon : Nat
  szTip : List Nat
  szInfo : List Nat
  szInfoTitle : List Nat
deriving Repr, DecidableEq

def NIF_ICON : Nat := 2

def NIF_TIP : Nat := 4

def NIF_INFO : Nat := 16

def NIF_SHOWTIP : Nat := 128

/-- The zero value `&win.NOTIFYICONDATA{...}` starts from: every fixed-capacity
text field is zero-filled. -/
def NOTIFYICONDATA.empty : NOTIFYICONDATA :=
  { uFlags := 0, hIcon := 0
    szTip := List.replicate 128 0
    szInfo := List.replicate 256 0
    szInfoTitle := List.replicate 64 0 }

/-- Total wrapper around the bounds-checked copy; `copyToUint16Buffer_eq` shows
the checked copy succeeds whenever the buffer capacity is positive, which holds
for each field it is applied to (128, 256 and 64). -/
def copyBuf (buff text : List Nat) : List Nat :=
  (copyToUint16Buffer buff text).getD buff

/-- The `NOTIFYICONDATA` value built by `setTip` (lines 166–178): flags
`NIF_TIP | NIF_SHOWTIP` and the text copied into `SzTip`. -/
def setTipNID (text : List Nat) : NOTIFYICONDATA :=
  { NOTIFYICONDATA.empty with
    uFlags := NIF_TIP + NIF_SHOWTIP
    szTip := copyBuf NOTIFYICONDATA.empty.szTip text }

/-- `setTip`: build the structure, call `Shell_NotifyIcon(NIM_MODIFY, nid)` and
report an error when that call returns false. -/
def setTip (text : List Nat) (shellOk : Bool) : NOTIFYICONDATA × Except String Unit :=
  (setTipNID text,
   if shellOk then Except.ok () else Except.error "unable to change tooltip")

/-- The `NOTIFYICONDATA` value built by `showNotification` (lines 204–217):
flags `NIF_INFO`, body copied into `SzInfo`, title into `SzInfoTitle`. -/
def showNotificationNID (info infoTitle : List Nat) : NOTIFYICONDATA :=
  { NOTIFYICONDATA.empty with
    uFlags := NIF_INFO
    szInfo := copyBuf NOTIFYICONDATA.empty.szInfo info
    szInfoTitle := copyBuf NOTIFYICONDATA.empty.szInfoTitle infoTitle }

def showNotification (info infoTitle : List Nat) (shellOk : Bool) :
    NOTIFYICONDATA × Except String Unit :=
  (showNotificationNID info infoTitle,
   if shellOk then Except.ok () else Except.error "unable to display notification")

inductive MenuEntry
  | item (id : Nat) (text : List Nat)
  | sep
deriving Repr, DecidableEq

/-- 32-bit modulus: `menuIds` is a Go `uint32`. -/
def U32 : Nat := 2 ^ 32

/-- The state the actor goroutine owns, together with the shell-side
observables it drives: the `menuIds` counter, the `menuFns` map (an
association list, most recent binding first, as a Go map overwrite), the
entries of the native popup menu, and the icon currently installed on the
tray entry (`none` before the first successful `NIM_MODIFY`/`NIF_ICON`). -/
structure TrayState where
  menuIds : Nat
  menuFns : List (Nat × Nat)
  menu : List MenuEntry
  icon : Option Nat
deriving Repr, DecidableEq

/-- `run`'s locals before the pump starts: `menuIds uint32 = 100`, empty map,
empty popup menu, no icon installed. -/
def initialState : TrayState :=
  { menuIds := 100, menuFns := [], menu := [], icon := none }

/-- `newMenuId`: return the current counter and increment it (uint32
arithmetic). -/
def newMenuId (s : TrayState) : Nat × TrayState :=
  (s.menuIds, { s with menuIds := (s.menuIds + 1) % U32 })

/-- The request payloads of the `pMessage` protocol (`pMESSAGE_*`).  A menu
callback `func()` is opaque and represented by a token. -/
inductive Request
  | setIconFromBytes (b : List Nat)
  | setTip (t : List Nat)
  | addMenuItem (text : List Nat) (fn : Nat)
  | addMenuSeparator
  | showNotification (info title : List Nat)
deriving Repr, DecidableEq

/-- Outcomes of the native platform calls a single request can make, supplied
by the environment: the temp-file name `os.CreateTemp` produces (or `none` on
failure), the handle `win.LoadImage` returns (0 on failure), and the boolean
results of `win.Shell_NotifyIcon` and `AppendMenuW`. -/
structure Oracle where
  createTemp : Option String
  loadImage : Nat
  shellOk : Bool
  appendOk : Bool
deriving Repr, DecidableEq

/-- An all-success oracle. -/
def okOracle : Oracle :=
  { createTemp := some "tmp.ico", loadImage := 1, shellOk := true, appendOk := true }

/-- Observable events of the actor goroutine: filesystem operations on the
transient icon file, the native calls issued, the mailbox hand-shakes, the
rendezvous and shutdown signals, and how a menu callback is invoked. -/
inductive NEvent
  | fsCreate (f : String)
  | fsRemove (f : String)
  | loadIcon (f : String)
  | shellModify
  | appendMenu (separator : Bool) (id : Nat)
  | shellAdd
  | setVersion
  | shellDelete
  | dequeue
  | respond (ok : Bool)
  | spawnDetached (fn : Nat)
  | invokeOnActor (fn : Nat)
  | registerClass
  | createWindow
  | sendHwnd
  | closedSignal
deriving Repr, DecidableEq

/-- `setIcon` (lines 124–164): create a transient `*.ico` file holding the
bytes, load the icon from it, install it with `NIM_MODIFY`/`NIF_ICON`, and
remove the transient file via `defer` on every path after its creation.
Returns the operation result, the icon now installed on the shell (unchanged
unless the modify call succeeded), and the event trace. -/
def setIcon (o : Oracle) (icon : Option Nat) :
    Except String Unit × Option Nat × List NEvent :=
  match o.createTemp with
  | none => (Except.error "createtemp failed", icon, [])
  | some f =>
    if o.loadImage = 0 then
      (Except.error "unable to load icon", icon,
        [NEvent.fsCreate f, NEvent.loadIcon f, NEvent.fsRemove f])
    else if o.shellOk then
      (Except.ok (), some o.loadImage,
        [NEvent.fsCreate f, NEvent.loadIcon f, NEvent.shellModify, NEvent.fsRemove f])
    else
      (Except.error "unable to change icon", icon,
        [NEvent.fsCreate f, NEvent.loadIcon f, NEvent.shellModify, NEvent.fsRemove f])

/-- The `pWMAPP_MESSAGE` dispatch of `wndProc` (lines 309–329): one request,
one native action, one result.  `addMenuItem` allocates the identifier and
registers the callback before the native append, and neither is rolled back
when `AppendMenuW` fails; the native menu itself gains the entry only when the
append succeeds. -/
def handleRequest (o : Oracle) (s : TrayState) :
    Request → Except String Unit × TrayState × List NEvent
  | .setIconFromBytes _ =>
    let (res, icon, ev) := setIcon o s.icon
    (res, { s with icon := icon }, ev)
  | .setTip t =>
    ((setTip t o.shellOk).2, s, [NEvent.shellModify])
  | .addMenuItem text fn =>
    let (id, s1) := newMenuId s
    let s2 := { s1 with menuFns := (id, fn) :: s1.menuFns }
    if o.appendOk then
      (Except.ok (), { s2 with menu := s2.menu ++ [MenuEntry.item id text] },
        [NEvent.appendMenu false id])
    else
      (Except.error "append failed", s2, [NEvent.appendMenu false id])
  | .addMenuSeparator =>
    if o.appendOk then
      (Except.ok (), { s with menu := s.menu ++ [MenuEntry.sep] },
        [NEvent.appendMenu true 0])
    else
      (Except.error "append failed", s, [NEvent.appendMenu true 0])
  | .showNotification info title =>
    ((showNotification info title o.shellOk).2, s, [NEvent.shellModify])

def resultBit : Except String Unit → Bool
  | Except.ok _ => true
  | Except.error _ => false

/-- The actor processing a queue of requests, one full
dequeue/handle/respond cycle per wake-up message, accumulating the final
state, the event trace and the responses sent back on `returnChan`. -/
def processAll (s : TrayState) :
    List (Request × Oracle) → TrayState × List NEvent × List (Except String Unit)
  | [] => (s, [], [])
  | (r, o) :: rest =>
    let (res, s1, ev) := handleRequest o s r
    let (s2, evs, ress) := processAll s1 rest
    (s2, (NEvent.dequeue :: ev ++ [NEvent.respond (resultBit res)]) ++ evs, res :: ress)

/-- An inbound entry of the native message queue: a `pWMAPP_MESSAGE` wake-up
(with the mailbox payload the caller enqueues alongside it) or the `WM_QUIT`
termination signal that `Close` posts. -/
inductive Msg
  | app (r : Request) (o : Oracle)
  | quit
deriving Repr, DecidableEq

/-- The message pump (`for win.GetMessage(...) == win.TRUE`): each wake-up
dispatches one request through `wndProc`; when `GetMessage` retrieves the
`WM_QUIT` termination signal it returns zero, so the loop exits without
dispatching that message — the `case win.WM_QUIT:` branch of `wndProc`
(`destroyTrayIcon`, the `NIM_DELETE`) is never reached, the state and the
shell icon are left as they are, and anything still queued behind the
signal is ignored.  The boolean reports whether the loop exited. -/
def pump (s : TrayState) : List Msg → TrayState × List NEvent × Bool
  | [] => (s, [], false)
  | .quit :: _ => (s, [], true)
  | .app r o :: rest =>
    let (res, s1, ev) := handleRequest o s r
    let (s2, evs, done) := pump s1 rest
    (s2, (NEvent.dequeue :: ev ++ [NEvent.respond (resultBit res)]) ++ evs, done)

/-- `run` (lines 244–371): register the window class, create the hidden
window — `CreateWindowEx` synchronously delivers `WM_CREATE`, whose handler
installs the tray icon (`NIM_ADD`) and sets the notify-icon version — send the
window handle over the one-shot `hwndChan` rendezvous, and only then pump
messages; the deferred `close(closedChan)` fires once when the pump loop
exits. -/
def runEvents (s : TrayState) (msgs : List Msg) : TrayState × List NEvent × Bool :=
  let (s1, ev, done) := pump s msgs
  (s1,
   [NEvent.registerClass, NEvent.createWindow, NEvent.shellAdd, NEvent.setVersion,
    NEvent.sendHwnd] ++ ev ++ (if done then [NEvent.closedSignal] else []),
   done)

/-- The Windows message code `WM_RBUTTONUP`. -/
def WM_RBUTTONUP : Nat := 517

/-- The `pWMAPP_NOTIFYCALLBACK` handler of `wndProc` (lines 291–306): on a
right-button release, query the cursor position, track the popup menu (the
platform returns the selected identifier, 0 on dismissal — supplied here as
`selectedId`), and when the identifier is registered in `menuFns`, invoke the
callback on a fresh goroutine (`go fn()`) detached from the actor's thread;
otherwise do nothing. -/
def handleNotifyCallback (s : TrayState) (lowordLparam selectedId : Nat) : List NEvent :=
  if lowordLparam = WM_RBUTTONUP then
    match s.menuFns.lookup selectedId with
    | some fn => [NEvent.spawnDetached fn]
    | none => []
  else []

/-- Caller-side steps of a public operation (`SetTip`, `AddMenuItem`,
`AddMenuSeparator`, `SetIconFromBytes`, `ShowNotification`, lines 389–443):
post one `pWMAPP_MESSAGE` wake-up with `win.PostMessage`, send one payload on
`messageChan`, then block receiving from `returnChan`. -/
inductive CallerEvent
  | postWakeup
  | enqueue (r : Request)
  | awaitResponse
deriving Repr, DecidableEq

def publicOpCallerEvents (r : Request) : List CallerEvent :=
  [CallerEvent.postWakeup, CallerEvent.enqueue r, CallerEvent.awaitResponse]

/-- Events a single request handler can emit: filesystem work on the transient
icon file and the native calls, nothing else. -/
def isNativeCall : NEvent → Bool
  | .fsCreate _ => true
  | .fsRemove _ => true
  | .loadIcon _ => true
  | .shellModify => true
  | .appendMenu _ _ => true
  | _ => false

def itemCount : List (Request × Oracle) → Nat
  | [] => 0
  | (Request.addMenuItem _ _, _) :: rest => itemCount rest + 1
  | _ :: rest => itemCount rest

/-- The `menuFns` bindings a request sequence registers, in registration
order, when allocation starts at `base`. -/
def specFns (base : Nat) : List (Request × Oracle) → List (Nat × Nat)
  | [] => []
  | (Request.addMenuItem _ fn, _) :: rest => (base, fn) :: specFns (base + 1) rest
  | _ :: rest => specFns base rest

/-- The display order the spec promises: menu entries and separators appended
in call order (an entry is present when its `AppendMenuW` call succeeded),
items numbered consecutively from `base`, separators consuming no
identifier. -/
def specMenu (base : Nat) : List (Request × Oracle) → List MenuEntry
  | [] => []
  | (Request.addMenuItem t _, o) :: rest =>
    (if o.appendOk then [MenuEntry.item base t] else []) ++ specMenu (base + 1) rest
  | (Request.addMenuSeparator, o) :: rest =>
    (if o.appendOk then [MenuEntry.sep] else []) ++ specMenu base rest
  | _ :: rest => specMenu base rest

/-- The identifiers `newMenuId` handed out, in allocation order (`menuFns`
keeps the most recent binding first). -/
def assignedIds (s : TrayState) : List Nat := (s.menuFns.map Prod.fst).reverse

/-- Upper bound on the events the message pump can produce: the mailbox
handshake and the native calls of a request.  `shellDelete` is also admitted
by this classification, although the pump never emits it — the `WM_QUIT`
handler that would issue the `NIM_DELETE` is unreachable. -/
def pumpEvent : NEvent → Bool
  | .dequeue => true
  | .respond _ => true
  | .shellDelete => true
  | e => isNativeCall e

def exInput : List (Request × Oracle) :=
  [(Request.addMenuItem [80] 1, okOracle),
   (Request.addMenuItem [81] 2, okOracle),
   (Request.addMenuSeparator, okOracle),
   (Request.addMenuItem [65] 3, okOracle)]

/-- An input long enough to wrap the uint32 id counter: 2^32 − 99 menu items. -/
def cxInput : List (Request × Oracle) :=
  List.replicate (U32 - 99) (Request.addMenuItem [] 0, okOracle)

/-- C1 (amended): for every request sequence containing fewer than 2^32 − 100
`AddMenuItem` calls — beyond that the uint32 identifier counter wraps around —
the identifiers assigned by `AddMenuItem` are exactly 100, 101, 102, …: unique,
strictly increasing, starting at the fixed base 100, with separators consuming
no identifier; and the native menu holds the (successfully appended) entries
in exactly the call order, carrying those identifiers. -/
theorem copyLoop_nil (buff : List Nat) (i : Nat) : copyLoop buff i [] = some buff := rfl

theorem copyLoop_cons (buff : List Nat) (i v : Nat) (rest : List Nat) :
    copyLoop buff i (v :: rest) =
      if i = buff.length then
        setChecked buff (i - 1) 0
      else
        match setChecked buff i v with
        | some b => copyLoop b (i + 1) rest
        | none => none := rfl

theorem copyLoop_spec (units : List Nat) : ∀ (buff : List Nat) (i : Nat),
    i ≤ buff.length → 0 < buff.length →
    copyLoop buff i units =
      if i + units.length ≤ buff.length then
        some (buff.take i ++ units ++ buff.drop (i + units.length))
      else
        some ((buff.take i ++ units).take (buff.length - 1) ++ [0]) := by
  induction units with
  | nil =>
    intro buff i hi hpos
    simp [copyLoop_nil, hi, List.take_append_drop]
  | cons v rest ih =>
    intro buff i hi hpos
    rcases Nat.lt_or_ge i buff.length with hlt | hge
    · -- the write at index `i` is in bounds; recurse on the updated buffer
      have hne : i ≠ buff.length := Nat.ne_of_lt hlt
      have hset : setChecked buff i v = some (buff.set i v) := by
        simp [setChecked, hlt]
      have hlen : (buff.set i v).length = buff.length := by simp
      have hrec := ih (buff.set i v) (i + 1) (by omega) (by omega)
      have hseteq : buff.set i v = buff.take i ++ v :: buff.drop (i + 1) :=
        List.set_eq_take_cons_drop v hlt
      have htklen : (buff.take i).length = i := by
        rw [List.length_take]; omega
      have htake : (buff.set i v).take (i + 1) = buff.take i ++ [v] := by
        rw [hseteq, List.take_append_eq_append_take, htklen]
        have h2 : (buff.take i).take (i + 1) = buff.take i := by
          apply List.take_of_length_le
          rw [htklen]; omega
        rw [h2, show i + 1 - i = 1 by omega]
        rfl
      have hdrop : ∀ m, i + 1 ≤ m → (buff.set i v).drop m = buff.drop m := by
        intro m hm
        rw [hseteq, List.drop_append_eq_append_drop, htklen]
        have h2 : (buff.take i).drop m = [] := by
          apply List.drop_eq_nil_of_le
          rw [htklen]; omega
        rw [h2]
        have h3 : m - i = (m - i - 1) + 1 := by omega
        rw [h3]
        simp only [List.drop_succ_cons, List.nil_append]
        rw [List.drop_drop]
        congr 1
        omega
      rw [copyLoop_cons, if_neg hne, hset]
      show copyLoop (buff.set i v) (i + 1) rest = _
      rw [hrec, hlen]
      rcases le_or_lt (i + (v :: rest).length) buff.length with hcap | hcap
      · have hcap' : i + 1 + rest.length ≤ buff.length := by
          simp only [List.length_cons] at hcap; omega
        rw [if_pos hcap', if_pos hcap]
        rw [htake, hdrop (i + 1 + rest.length) (by omega)]
        rw [show i + (v :: rest).length = i + 1 + rest.length by simp; omega]
        simp [List.append_assoc]
      · have hcap' : ¬ (i + 1 + rest.length ≤ buff.length) := by
          simp only [List.length_cons] at hcap; omega
        rw [if_neg hcap', if_neg (by simp only [List.length_cons]; omega)]
        rw [htake]
        congr 2
        simp
    · -- the index has reached capacity: terminate and stop
      have heq : i = buff.length := Nat.le_antisymm hi hge
      rw [copyLoop_cons, if_pos heq]
      rw [if_neg (by simp only [List.length_cons]; omega)]
      have hterm : setChecked buff (i - 1) 0 = some (buff.set (i - 1) 0) := by
        simp only [setChecked, if_pos (show i - 1 < buff.length by omega)]
      rw [hterm]
      have hset : buff.set (i - 1) 0 = buff.take (i - 1) ++ [0] := by
        rw [List.set_eq_take_cons_drop 0 (show i - 1 < buff.length by omega)]
        have h2 : buff.drop (i - 1 + 1) = [] := by
          apply List.drop_eq_nil_of_le; omega
        rw [h2]
      rw [hset]
      congr 2
      rw [List.take_append_eq_append_take]
      have h1 : (buff.take i).length = i := by
        rw [List.length_take]; omega
      rw [h1, show buff.length - 1 - i = 0 by omega]
      have h2 : (buff.take i).take (buff.length - 1) = buff.take (buff.length - 1) := by
        rw [List.take_take]
        congr 1
        omega
      rw [h2, ← heq]
      simp

/-- Exact result of `copyToUint16Buffer`: when the encoded text and its
terminator fit, the field holds the text, a terminator, and the untouched tail
of the buffer; otherwise the first `capacity − 1` units of the text followed by
a terminator. -/
theorem copyToUint16Buffer_eq (buff text : List Nat) (h : 0 < buff.length) :
    copyToUint16Buffer buff text =
      if text.length + 1 ≤ buff.length then
        some (text ++ 0 :: buff.drop (text.length + 1))
      else
        some (text.take (buff.length - 1) ++ [0]) := by
  unfold copyToUint16Buffer
  rw [copyLoop_spec (utf16FromString text) buff 0 (Nat.zero_le _) h]
  unfold utf16FromString
  simp only [List.length_append, List.length_singleton, List.take_zero,
    List.nil_append, Nat.zero_add]
  rcases le_or_lt (text.length + 1) buff.length with hle | hlt
  · rw [if_pos hle, if_pos hle]
    simp
  · rw [if_neg (by omega), if_neg (by omega)]
    congr 2
    rw [List.take_append_eq_append_take]
    have h1 : buff.length - 1 - text.length = 0 := by omega
    rw [h1]
    simp

theorem bufferString_append_zero (l r : List Nat) (h : 0 ∉ l) :
    bufferString (l ++ 0 :: r) = l := by
  induction l with
  | nil => simp [bufferString]
  | cons a tl ih =>
    have ha : a ≠ 0 := by intro h0; exact h (h0 ▸ List.mem_cons_self a tl)
    have htl : 0 ∉ tl := fun hm => h (List.mem_cons_of_mem a hm)
    simpa [bufferString, List.takeWhile_cons, ha] using ih htl

theorem bufferString_append_zero_nil (l : List Nat) (h : 0 ∉ l) :
    bufferString (l ++ [0]) = l :=
  bufferString_append_zero l [] h

theorem copy_replicate (n : Nat) (hn : 0 < n) (text : List Nat) :
    copyToUint16Buffer (List.replicate n 0) text =
      some (if text.length + 1 ≤ n then text ++ 0 :: List.replicate (n - (text.length + 1)) 0
            else text.take (n - 1) ++ [0]) := by
  rw [copyToUint16Buffer_eq _ _ (by simpa using hn)]
  simp only [List.length_replicate, List.drop_replicate]
  split <;> rfl

theorem copyBuf_replicate (n : Nat) (hn : 0 < n) (text : List Nat) :
    copyBuf (List.replicate n 0) text =
      if text.length + 1 ≤ n then text ++ 0 :: List.replicate (n - (text.length + 1)) 0
      else text.take (n - 1) ++ [0] := by
  rw [copyBuf, copy_replicate n hn text]
  rfl

theorem length_copyBuf_replicate (n : Nat) (hn : 0 < n) (text : List Nat) :
    (copyBuf (List.replicate n 0) text).length = n := by
  rw [copyBuf_replicate n hn text]
  split
  · simp; omega
  · rename_i h
    rw [List.length_append, List.length_take]
    simp only [List.length_singleton]
    omega

theorem bufferString_copyBuf_replicate (n : Nat) (hn : 0 < n) (text : List Nat)
    (hz : 0 ∉ text) :
    bufferString (copyBuf (List.replicate n 0) text) = text.take (n - 1) := by
  rw [copyBuf_replicate n hn text]
  split
  · rename_i h
    rw [bufferString_append_zero text _ hz]
    rw [List.take_of_length_le]
    omega
  · exact bufferString_append_zero_nil _ fun hm => hz (List.take_subset _ _ hm)

theorem setTip_szTip (tip : List Nat) (ok : Bool) :
    (setTip tip ok).1.szTip = copyBuf (List.replicate 128 0) tip := rfl

theorem setTip_szInfo (tip : List Nat) (ok : Bool) :
    (setTip tip ok).1.szInfo = List.replicate 256 0 := rfl

theorem setTip_szInfoTitle (tip : List Nat) (ok : Bool) :
    (setTip tip ok).1.szInfoTitle = List.replicate 64 0 := rfl

theorem showNotification_szInfo (info infoTitle : List Nat) (ok : Bool) :
    (showNotification info infoTitle ok).1.szInfo =
      copyBuf (List.replicate 256 0) info := rfl

theorem showNotification_szInfoTitle (info infoTitle : List Nat) (ok : Bool) :
    (showNotification info infoTitle ok).1.szInfoTitle =
      copyBuf (List.replicate 64 0) infoTitle := rfl

theorem showNotification_szTip (info infoTitle : List Nat) (ok : Bool) :
    (showNotification info infoTitle ok).1.szTip = List.replicate 128 0 := rfl

/-- C9: for every NUL-free input text and every fixed-capacity UTF-16 field of
capacity at least 1, `copyToUint16Buffer` performs only in-bounds writes (no
reflect panic: the checked copy returns a value), preserves the buffer length,
always leaves the buffer NUL-terminated, and the content before the first NUL
is a prefix of the UTF-16 encoding of the text — the whole text when the
encoding and its terminator fit, and exactly `capacity − 1` of its code units
when they exceed the capacity. -/
theorem copyToUint16Buffer_safe (buff text : List Nat) (hcap : 0 < buff.length)
    (hz : 0 ∉ text) :
    ∃ r, copyToUint16Buffer buff text = some r
      ∧ r.length = buff.length
      ∧ 0 ∈ r
      ∧ bufferString r = text.take (min text.length (buff.length - 1))
      ∧ (buff.length ≤ text.length → bufferString r = text.take (buff.length - 1))
      ∧ (text.length + 1 ≤ buff.length → r = text ++ 0 :: buff.drop (text.length + 1)) := by
  rw [copyToUint16Buffer_eq buff text hcap]
  by_cases hc : text.length + 1 ≤ buff.length
  · refine ⟨text ++ 0 :: buff.drop (text.length + 1), by rw [if_pos hc], ?_, ?_, ?_, ?_, ?_⟩
    · rw [List.length_append, List.length_cons, List.length_drop]
      omega
    · exact List.mem_append_right _ (List.mem_cons_self 0 _)
    · rw [bufferString_append_zero text _ hz, min_eq_left (by omega),
        List.take_of_length_le (le_refl _)]
    · intro h; omega
    · intro _; rfl
  · refine ⟨text.take (buff.length - 1) ++ [0], by rw [if_neg hc], ?_, ?_, ?_, ?_, ?_⟩
    · rw [List.length_append, List.length_take]
      simp only [List.length_singleton]
      omega
    · exact List.mem_append_right _ (List.mem_cons_self 0 _)
    · rw [bufferString_append_zero_nil _ fun hm => hz (List.take_subset _ _ hm),
        min_eq_right (by omega)]
    · intro _
      exact bufferString_append_zero_nil _ fun hm => hz (List.take_subset _ _ hm)
    · intro h; omega

theorem copyToUint16Buffer_safe_witness :
    0 < ([9, 9, 9] : List Nat).length ∧ 0 ∉ ([1, 2, 3, 4, 5] : List Nat) ∧
    (∃ r, copyToUint16Buffer [9, 9, 9] [1, 2, 3, 4, 5] = some r
      ∧ r.length = ([9, 9, 9] : List Nat).length
      ∧ 0 ∈ r
      ∧ bufferString r =
          ([1, 2, 3, 4, 5] : List Nat).take
            (min ([1, 2, 3, 4, 5] : List Nat).length (([9, 9, 9] : List Nat).length - 1))
      ∧ (([9, 9, 9] : List Nat).length ≤ ([1, 2, 3, 4, 5] : List Nat).length →
          bufferString r = ([1, 2, 3, 4, 5] : List Nat).take (([9, 9, 9] : List Nat).length - 1))
      ∧ (([1, 2, 3, 4, 5] : List Nat).length + 1 ≤ ([9, 9, 9] : List Nat).length →
          r = [1, 2, 3, 4, 5] ++ 0 :: ([9, 9, 9] : List Nat).drop
            (([1, 2, 3, 4, 5] : List Nat).length + 1))) :=
  ⟨by decide, by decide,
   copyToUint16Buffer_safe [9, 9, 9] [1, 2, 3, 4, 5] (by decide) (by decide)⟩

/-- C3 (amended): `setTip` and `showNotification` marshal NUL-free text into the
fixed-capacity fields by truncating instead of failing — the checked copy
always succeeds, the shell call is still issued and only its own outcome
decides the result — writing a terminator at the truncation boundary and
leaving the other text fields untouched; a text of length strictly under the
field capacity (at most `capacity − 1`, one slot being reserved for the NUL
terminator) is stored unmodified, and a longer text keeps exactly
`capacity − 1` code units. -/
theorem marshal_truncates_and_roundtrips (tip info title : List Nat)
    (htip : 0 ∉ tip) (hinfo : 0 ∉ info) (htitle : 0 ∉ title) (ok : Bool) :
    (copyToUint16Buffer NOTIFYICONDATA.empty.szTip tip).isSome = true
    ∧ (setTip tip ok).1.szTip.length = 128
    ∧ bufferString (setTip tip ok).1.szTip = tip.take 127
    ∧ (tip.length < 128 → bufferString (setTip tip ok).1.szTip = tip)
    ∧ (setTip tip ok).1.szInfo = NOTIFYICONDATA.empty.szInfo
    ∧ (setTip tip ok).1.szInfoTitle = NOTIFYICONDATA.empty.szInfoTitle
    ∧ (setTip tip ok).2 = (setTip [] ok).2
    ∧ (showNotification info title ok).1.szInfo.length = 256
    ∧ (showNotification info title ok).1.szInfoTitle.length = 64
    ∧ bufferString (showNotification info title ok).1.szInfo = info.take 255
    ∧ bufferString (showNotification info title ok).1.szInfoTitle = title.take 63
    ∧ (info.length < 256 → bufferString (showNotification info title ok).1.szInfo = info)
    ∧ (title.length < 64 →
        bufferString (showNotification info title ok).1.szInfoTitle = title)
    ∧ (showNotification info title ok).1.szTip = NOTIFYICONDATA.empty.szTip
    ∧ (showNotification info title ok).2 = (showNotification [] [] ok).2 := by
  refine ⟨?_, ?_, ?_, ?_, rfl, rfl, rfl, ?_, ?_, ?_, ?_, ?_, ?_, rfl, rfl⟩
  · rw [show NOTIFYICONDATA.empty.szTip = List.replicate 128 0 from rfl,
      copy_replicate 128 (by norm_num) tip]
    rfl
  · rw [setTip_szTip]
    exact length_copyBuf_replicate 128 (by norm_num) tip
  · rw [setTip_szTip]
    exact bufferString_copyBuf_replicate 128 (by norm_num) tip htip
  · intro h
    rw [setTip_szTip, bufferString_copyBuf_replicate 128 (by norm_num) tip htip]
    exact List.take_of_length_le (by omega)
  · rw [showNotification_szInfo]
    exact length_copyBuf_replicate 256 (by norm_num) info
  · rw [showNotification_szInfoTitle]
    exact length_copyBuf_replicate 64 (by norm_num) title
  · rw [showNotification_szInfo]
    exact bufferString_copyBuf_replicate 256 (by norm_num) info hinfo
  · rw [showNotification_szInfoTitle]
    exact bufferString_copyBuf_replicate 64 (by norm_num) title htitle
  · intro h
    rw [showNotification_szInfo, bufferString_copyBuf_replicate 256 (by norm_num) info hinfo]
    exact List.take_of_length_le (by omega)
  · intro h
    rw [showNotification_szInfoTitle,
      bufferString_copyBuf_replicate 64 (by norm_num) title htitle]
    exact List.take_of_length_le (by omega)

theorem marshal_truncates_and_roundtrips_witness :
    0 ∉ ([65] : List Nat) ∧
    bufferString (setTip [65] true).1.szTip = ([65] : List Nat).take 127 ∧
    (([65] : List Nat).length < 128 → bufferString (setTip [65] true).1.szTip = [65]) ∧
    bufferString (showNotification [66] [67] true).1.szInfo = ([66] : List Nat).take 255 :=
  ⟨by decide,
   (marshal_truncates_and_roundtrips [65] [66] [67]
     (by decide) (by decide) (by decide) true).2.2.1,
   (marshal_truncates_and_roundtrips [65] [66] [67]
     (by decide) (by decide) (by decide) true).2.2.2.1,
   (marshal_truncates_and_roundtrips [65] [66] [67]
     (by decide) (by decide) (by decide) true).2.2.2.2.2.2.2.2.2.1⟩

/-- C3 counterexample: a tooltip of length exactly 128 — the `SzTip` field's
native capacity — is not stored unmodified: the terminator written at the
truncation boundary keeps only its first 127 code units. -/
theorem setTip_capacity_boundary_cx :
    ¬ bufferString (setTip (List.replicate 128 1) true).1.szTip = List.replicate 128 1 := by
  rw [setTip_szTip,
    bufferString_copyBuf_replicate 128 (by norm_num) _ (by simp),
    List.take_replicate]
  intro h
  have := congrArg List.length h
  simp at this

/-- One entry of the native popup menu, in the order `AppendMenuW` appended
them: a clickable item with its command identifier and caption, or a
separator (`MF_SEPARATOR`, identifier argument 0). -/
theorem setIcon_events (o : Oracle) (icon : Option Nat) :
    ∀ e ∈ (setIcon o icon).2.2, isNativeCall e = true := by
  intro e he
  cases hct : o.createTemp with
  | none => simp [setIcon, hct] at he
  | some f =>
    by_cases h0 : o.loadImage = 0
    · simp [setIcon, hct, h0] at he
      rcases he with h | h | h <;> simp [h, isNativeCall]
    · by_cases hso : o.shellOk <;>
      · simp [setIcon, hct, h0, hso] at he
        rcases he with h | h | h | h <;> simp [h, isNativeCall]

theorem handleRequest_events (o : Oracle) (s : TrayState) (r : Request) :
    ∀ e ∈ (handleRequest o s r).2.2, isNativeCall e = true := by
  intro e he
  cases r with
  | setIconFromBytes b =>
    exact setIcon_events o s.icon e (by simpa [handleRequest] using he)
  | setTip t =>
    simp [handleRequest] at he
    simp [he, isNativeCall]
  | addMenuItem text fn =>
    by_cases ha : o.appendOk <;>
    · simp [handleRequest, newMenuId, ha] at he
      simp [he, isNativeCall]
  | addMenuSeparator =>
    by_cases ha : o.appendOk <;>
    · simp [handleRequest, ha] at he
      simp [he, isNativeCall]
  | showNotification info title =>
    simp [handleRequest] at he
    simp [he, isNativeCall]

/-- C5: when the image bytes cannot be loaded (`LoadImage` returns 0),
`SetIconFromBytes` reports a failure and no `Shell_NotifyIcon` modify call is
even issued, so the previously installed icon is untouched; when the modify
call applying a loaded icon is rejected, a failure is reported and the
installed icon is likewise unchanged. -/
theorem setIconFromBytes_failure (o : Oracle) (s : TrayState) (b : List Nat) :
    (o.loadImage = 0 →
      (∃ e, (handleRequest o s (Request.setIconFromBytes b)).1 = Except.error e)
      ∧ (handleRequest o s (Request.setIconFromBytes b)).2.1.icon = s.icon
      ∧ NEvent.shellModify ∉ (handleRequest o s (Request.setIconFromBytes b)).2.2)
    ∧ (o.shellOk = false →
      (∃ e, (handleRequest o s (Request.setIconFromBytes b)).1 = Except.error e)
      ∧ (handleRequest o s (Request.setIconFromBytes b)).2.1.icon = s.icon) := by
  constructor
  · intro h0
    cases hct : o.createTemp with
    | none => simp [handleRequest, setIcon, hct]
    | some f => simp [handleRequest, setIcon, hct, h0]
  · intro hso
    cases hct : o.createTemp with
    | none => simp [handleRequest, setIcon, hct]
    | some f =>
      by_cases h0 : o.loadImage = 0
      · simp [handleRequest, setIcon, hct, h0]
      · simp [handleRequest, setIcon, hct, h0, hso]

theorem setIconFromBytes_failure_witness :
    ({ createTemp := some "t.ico", loadImage := 0, shellOk := true,
       appendOk := true } : Oracle).loadImage = 0 ∧
    ((∃ e, (handleRequest
        { createTemp := some "t.ico", loadImage := 0, shellOk := true, appendOk := true }
        initialState (Request.setIconFromBytes [1])).1 = Except.error e)
      ∧ (handleRequest
        { createTemp := some "t.ico", loadImage := 0, shellOk := true, appendOk := true }
        initialState (Request.setIconFromBytes [1])).2.1.icon = initialState.icon
      ∧ NEvent.shellModify ∉ (handleRequest
        { createTemp := some "t.ico", loadImage := 0, shellOk := true, appendOk := true }
        initialState (Request.setIconFromBytes [1])).2.2) :=
  ⟨rfl,
   (setIconFromBytes_failure
     { createTemp := some "t.ico", loadImage := 0, shellOk := true, appendOk := true }
     initialState [1]).1 rfl⟩

/-- C7: a `SetIconFromBytes` call creates at most one transient icon file —
exactly one as soon as `os.CreateTemp` succeeds — and the deferred remove
deletes it on every path after its creation, whatever the outcomes of the
icon load and of the native apply call, so no temporary file outlives the
call. -/
theorem setIcon_tempfile_cleanup (o : Oracle) (s : TrayState) (b : List Nat) :
    (∀ f g, NEvent.fsCreate f ∈ (handleRequest o s (Request.setIconFromBytes b)).2.2 →
      NEvent.fsCreate g ∈ (handleRequest o s (Request.setIconFromBytes b)).2.2 → f = g)
    ∧ (∀ f, NEvent.fsCreate f ∈ (handleRequest o s (Request.setIconFromBytes b)).2.2 →
        NEvent.fsRemove f ∈ (handleRequest o s (Request.setIconFromBytes b)).2.2)
    ∧ (∀ f, o.createTemp = some f →
        ((handleRequest o s (Request.setIconFromBytes b)).2.2.count (NEvent.fsCreate f) = 1
        ∧ (handleRequest o s (Request.setIconFromBytes b)).2.2.count (NEvent.fsRemove f) = 1)) := by
  cases hct : o.createTemp with
  | none =>
    refine ⟨?_, ?_, ?_⟩
    · intro f g hf
      simp [handleRequest, setIcon, hct] at hf
    · intro f hf
      simp [handleRequest, setIcon, hct] at hf
    · intro f hf
      simp [hct] at hf
  | some f0 =>
    by_cases h0 : o.loadImage = 0
    · refine ⟨?_, ?_, ?_⟩
      · intro f g hf hg
        simp [handleRequest, setIcon, hct, h0] at hf hg
        exact hf.trans hg.symm
      · intro f hf
        simp [handleRequest, setIcon, hct, h0] at hf ⊢
        exact hf
      · intro f hf
        injection hf with hf
        subst hf
        simp [handleRequest, setIcon, hct, h0, List.count_cons]
    · by_cases hso : o.shellOk
      · refine ⟨?_, ?_, ?_⟩
        · intro f g hf hg
          simp [handleRequest, setIcon, hct, h0, hso] at hf hg
          exact hf.trans hg.symm
        · intro f hf
          simp [handleRequest, setIcon, hct, h0, hso] at hf ⊢
          exact hf
        · intro f hf
          injection hf with hf
          subst hf
          simp [handleRequest, setIcon, hct, h0, hso, List.count_cons]
      · refine ⟨?_, ?_, ?_⟩
        · intro f g hf hg
          simp [handleRequest, setIcon, hct, h0, hso] at hf hg
          exact hf.trans hg.symm
        · intro f hf
          simp [handleRequest, setIcon, hct, h0, hso] at hf ⊢
          exact hf
        · intro f hf
          injection hf with hf
          subst hf
          simp [handleRequest, setIcon, hct, h0, hso, List.count_cons]

theorem setIcon_tempfile_cleanup_witness :
    ({ createTemp := some "w.ico", loadImage := 0, shellOk := false,
       appendOk := true } : Oracle).createTemp = some "w.ico" ∧
    ((handleRequest
        { createTemp := some "w.ico", loadImage := 0, shellOk := false, appendOk := true }
        initialState (Request.setIconFromBytes [2])).2.2.count (NEvent.fsCreate "w.ico") = 1
      ∧ (handleRequest
        { createTemp := some "w.ico", loadImage := 0, shellOk := false, appendOk := true }
        initialState (Request.setIconFromBytes [2])).2.2.count (NEvent.fsRemove "w.ico") = 1) :=
  ⟨rfl,
   (setIcon_tempfile_cleanup
     { createTemp := some "w.ico", loadImage := 0, shellOk := false, appendOk := true }
     initialState [2]).2.2 "w.ico" rfl⟩

/-- C10: when `AppendMenuW` fails, the `ADD_MENU_ITEM` dispatch still consumed
the identifier (the counter advanced, and the next `AddMenuItem` receives the
next higher identifier) and the callback stays registered in `menuFns`; only
the native menu is left without the entry — the failed operation is not
rolled back, and an error is returned. -/
theorem addMenuItem_no_rollback (o o2 : Oracle) (s : TrayState)
    (t t2 : List Nat) (fn fn2 : Nat)
    (hfail : o.appendOk = false) (hlt : s.menuIds + 1 < U32) :
    (∃ e, (handleRequest o s (Request.addMenuItem t fn)).1 = Except.error e)
    ∧ (handleRequest o s (Request.addMenuItem t fn)).2.1.menuFns.lookup s.menuIds
        = some fn
    ∧ (handleRequest o s (Request.addMenuItem t fn)).2.1.menuIds = s.menuIds + 1
    ∧ (handleRequest o s (Request.addMenuItem t fn)).2.1.menu = s.menu
    ∧ (handleRequest o2 (handleRequest o s (Request.addMenuItem t fn)).2.1
        (Request.addMenuItem t2 fn2)).2.1.menuFns.lookup (s.menuIds + 1) = some fn2 := by
  have hmod : (s.menuIds + 1) % U32 = s.menuIds + 1 := Nat.mod_eq_of_lt hlt
  refine ⟨⟨"append failed", ?_⟩, ?_, ?_, ?_, ?_⟩
  · simp [handleRequest, newMenuId, hfail]
  · simp [handleRequest, newMenuId, hfail, List.lookup]
  · simp [handleRequest, newMenuId, hfail, hmod]
  · simp [handleRequest, newMenuId, hfail]
  · by_cases h2 : o2.appendOk <;>
      simp [handleRequest, newMenuId, hfail, h2, hmod, List.lookup]

theorem addMenuItem_no_rollback_witness :
    ({ createTemp := none, loadImage := 0, shellOk := true,
       appendOk := false } : Oracle).appendOk = false
    ∧ initialState.menuIds + 1 < U32
    ∧ ((∃ e, (handleRequest
          { createTemp := none, loadImage := 0, shellOk := true, appendOk := false }
          initialState (Request.addMenuItem [80] 7)).1 = Except.error e)
      ∧ (handleRequest
          { createTemp := none, loadImage := 0, shellOk := true, appendOk := false }
          initialState (Request.addMenuItem [80] 7)).2.1.menuFns.lookup
            initialState.menuIds = some 7
      ∧ (handleRequest
          { createTemp := none, loadImage := 0, shellOk := true, appendOk := false }
          initialState (Request.addMenuItem [80] 7)).2.1.menuIds
            = initialState.menuIds + 1
      ∧ (handleRequest
          { createTemp := none, loadImage := 0, shellOk := true, appendOk := false }
          initialState (Request.addMenuItem [80] 7)).2.1.menu = initialState.menu
      ∧ (handleRequest okOracle (handleRequest
          { createTemp := none, loadImage := 0, shellOk := true, appendOk := false }
          initialState (Request.addMenuItem [80] 7)).2.1
          (Request.addMenuItem [81] 8)).2.1.menuFns.lookup
            (initialState.menuIds + 1) = some 8) :=
  ⟨rfl, by decide,
   addMenuItem_no_rollback
     { createTemp := none, loadImage := 0, shellOk := true, appendOk := false }
     okOracle initialState [80] [81] 7 8 rfl (by decide)⟩

/-- C6: on the menu-activation gesture (`WM_RBUTTONUP` in the low word of
`lparam`), the actor looks the selected identifier up in `menuFns`; a
registered callback is started with `go fn()` — a fresh, independently
scheduled goroutine, never a synchronous invocation on the actor's own
thread — and an unregistered identifier (including 0, which `TrackPopupMenu`
returns on dismissal) causes no action at all. -/
theorem menu_callback_detached (s : TrayState) (lo selectedId : Nat) :
    (∀ fn, s.menuFns.lookup selectedId = some fn →
      handleNotifyCallback s lo selectedId =
        (if lo = WM_RBUTTONUP then [NEvent.spawnDetached fn] else []))
    ∧ (s.menuFns.lookup selectedId = none → handleNotifyCallback s lo selectedId = [])
    ∧ (∀ g, NEvent.invokeOnActor g ∉ handleNotifyCallback s lo selectedId) := by
  refine ⟨?_, ?_, ?_⟩
  · intro fn hfn
    by_cases hlo : lo = WM_RBUTTONUP <;> simp [handleNotifyCallback, hlo, hfn]
  · intro hnone
    by_cases hlo : lo = WM_RBUTTONUP <;> simp [handleNotifyCallback, hlo, hnone]
  · intro g hmem
    by_cases hlo : lo = WM_RBUTTONUP
    · cases hfn : s.menuFns.lookup selectedId with
      | none => simp [handleNotifyCallback, hlo, hfn] at hmem
      | some fn => simp [handleNotifyCallback, hlo, hfn] at hmem
    · simp [handleNotifyCallback, hlo] at hmem

theorem menu_callback_detached_witness :
    ({ initialState with menuFns := [(100, 7)] } : TrayState).menuFns.lookup 100 = some 7
    ∧ handleNotifyCallback { initialState with menuFns := [(100, 7)] } WM_RBUTTONUP 100 =
        (if WM_RBUTTONUP = WM_RBUTTONUP then [NEvent.spawnDetached 7] else [])
    ∧ ({ initialState with menuFns := [(100, 7)] } : TrayState).menuFns.lookup 0 = none
    ∧ handleNotifyCallback { initialState with menuFns := [(100, 7)] } WM_RBUTTONUP 0 = [] :=
  ⟨rfl,
   (menu_callback_detached { initialState with menuFns := [(100, 7)] }
     WM_RBUTTONUP 100).1 7 rfl,
   rfl,
   (menu_callback_detached { initialState with menuFns := [(100, 7)] }
     WM_RBUTTONUP 0).2.1 rfl⟩

theorem pump_nil_eq (s : TrayState) : pump s [] = (s, [], false) := rfl

theorem pump_quit_eq (s : TrayState) (rest : List Msg) :
    pump s (Msg.quit :: rest) = (s, [], true) := rfl

theorem pump_app_trace (s : TrayState) (r : Request) (o : Oracle) (rest : List Msg) :
    (pump s (Msg.app r o :: rest)).2.1 =
      (NEvent.dequeue :: ((handleRequest o s r).2.2
        ++ [NEvent.respond (resultBit (handleRequest o s r).1)]))
      ++ (pump (handleRequest o s r).2.1 rest).2.1 := rfl

theorem pump_app_done (s : TrayState) (r : Request) (o : Oracle) (rest : List Msg) :
    (pump s (Msg.app r o :: rest)).2.2 =
      (pump (handleRequest o s r).2.1 rest).2.2 := rfl

theorem processAll_nil_eq (s : TrayState) : processAll s [] = (s, [], []) := rfl

theorem processAll_cons_trace (s : TrayState) (ro : Request × Oracle)
    (rest : List (Request × Oracle)) :
    (processAll s (ro :: rest)).2.1 =
      (NEvent.dequeue :: ((handleRequest ro.2 s ro.1).2.2
        ++ [NEvent.respond (resultBit (handleRequest ro.2 s ro.1).1)]))
      ++ (processAll (handleRequest ro.2 s ro.1).2.1 rest).2.1 := rfl

theorem processAll_cons_state (s : TrayState) (ro : Request × Oracle)
    (rest : List (Request × Oracle)) :
    (processAll s (ro :: rest)).1 =
      (processAll (handleRequest ro.2 s ro.1).2.1 rest).1 := rfl

theorem processAll_cons_responses (s : TrayState) (ro : Request × Oracle)
    (rest : List (Request × Oracle)) :
    (processAll s (ro :: rest)).2.2 =
      (handleRequest ro.2 s ro.1).1
        :: (processAll (handleRequest ro.2 s ro.1).2.1 rest).2.2 := rfl

/-- The number of `AddMenuItem` requests in an input sequence. -/
theorem processAll_menu_state : ∀ (input : List (Request × Oracle)) (s : TrayState),
    s.menuIds + itemCount input < U32 →
    (processAll s input).1.menuIds = s.menuIds + itemCount input
    ∧ (processAll s input).1.menuFns = (specFns s.menuIds input).reverse ++ s.menuFns
    ∧ (processAll s input).1.menu = s.menu ++ specMenu s.menuIds input := by
  intro input
  induction input with
  | nil =>
    intro s hcount
    simp [processAll_nil_eq, specFns, specMenu, itemCount]
  | cons ro rest ih =>
    intro s hcount
    obtain ⟨r, o⟩ := ro
    rw [processAll_cons_state]
    cases r with
    | setIconFromBytes b =>
      have hs1 : (handleRequest o s (Request.setIconFromBytes b)).2.1 =
          { s with icon := (setIcon o s.icon).2.1 } := rfl
      rw [hs1]
      have := ih { s with icon := (setIcon o s.icon).2.1 }
        (by simpa [itemCount] using hcount)
      simpa [specFns, specMenu, itemCount] using this
    | setTip t =>
      have hs1 : (handleRequest o s (Request.setTip t)).2.1 = s := rfl
      rw [hs1]
      have := ih s (by simpa [itemCount] using hcount)
      simpa [specFns, specMenu, itemCount] using this
    | showNotification info title =>
      have hs1 : (handleRequest o s (Request.showNotification info title)).2.1 = s := rfl
      rw [hs1]
      have := ih s (by simpa [itemCount] using hcount)
      simpa [specFns, specMenu, itemCount] using this
    | addMenuSeparator =>
      have hcount' : s.menuIds + itemCount rest < U32 := by
        simpa [itemCount] using hcount
      by_cases ha : o.appendOk
      · have hs1 : (handleRequest o s Request.addMenuSeparator).2.1 =
            { s with menu := s.menu ++ [MenuEntry.sep] } := by
          simp [handleRequest, ha]
        rw [hs1]
        have := ih { s with menu := s.menu ++ [MenuEntry.sep] } hcount'
        simpa [specFns, specMenu, itemCount, ha, List.append_assoc] using this
      · have hs1 : (handleRequest o s Request.addMenuSeparator).2.1 = s := by
          simp [handleRequest, ha]
        rw [hs1]
        have := ih s hcount'
        simpa [specFns, specMenu, itemCount, ha] using this
    | addMenuItem t fn =>
      have hone : 1 ≤ itemCount ((Request.addMenuItem t fn, o) :: rest) := by
        simp [itemCount]
      have hmod : (s.menuIds + 1) % U32 = s.menuIds + 1 := by
        apply Nat.mod_eq_of_lt
        simp only [itemCount] at hcount
        omega
      have hcount' : s.menuIds + 1 + itemCount rest < U32 := by
        simp only [itemCount] at hcount
        omega
      by_cases ha : o.appendOk
      · have hs1 : (handleRequest o s (Request.addMenuItem t fn)).2.1 =
            { s with menuIds := s.menuIds + 1
                     menuFns := (s.menuIds, fn) :: s.menuFns
                     menu := s.menu ++ [MenuEntry.item s.menuIds t] } := by
          simp [handleRequest, newMenuId, ha, hmod]
        rw [hs1]
        have := ih { s with menuIds := s.menuIds + 1
                            menuFns := (s.menuIds, fn) :: s.menuFns
                            menu := s.menu ++ [MenuEntry.item s.menuIds t] } hcount'
        obtain ⟨h1, h2, h3⟩ := this
        refine ⟨?_, ?_, ?_⟩
        · rw [h1]
          simp only [itemCount]
          omega
        · rw [h2]
          simp [specFns, List.append_assoc]
        · rw [h3]
          simp [specMenu, ha, List.append_assoc]
      · have hs1 : (handleRequest o s (Request.addMenuItem t fn)).2.1 =
            { s with menuIds := s.menuIds + 1
                     menuFns := (s.menuIds, fn) :: s.menuFns } := by
          simp [handleRequest, newMenuId, ha, hmod]
        rw [hs1]
        have := ih { s with menuIds := s.menuIds + 1
                            menuFns := (s.menuIds, fn) :: s.menuFns } hcount'
        obtain ⟨h1, h2, h3⟩ := this
        refine ⟨?_, ?_, ?_⟩
        · rw [h1]
          simp only [itemCount]
          omega
        · rw [h2]
          simp [specFns, List.append_assoc]
        · rw [h3]
          simp [specMenu, ha]

theorem specFns_ids : ∀ (input : List (Request × Oracle)) (base : Nat),
    (specFns base input).map Prod.fst =
      (List.range (itemCount input)).map (fun k => base + k) := by
  intro input
  induction input with
  | nil => intro base; simp [specFns, itemCount]
  | cons ro rest ih =>
    intro base
    obtain ⟨r, o⟩ := ro
    cases r with
    | addMenuItem t fn =>
      simp only [specFns, itemCount, List.map_cons]
      rw [ih (base + 1), List.range_succ_eq_map, List.map_cons, List.map_map]
      have h0 : base + 0 = base := by omega
      have hfun : ((fun k => base + k) ∘ Nat.succ) = (fun k => base + 1 + k) := by
        funext k
        simp only [Function.comp_apply]
        omega
      rw [h0, hfun]
    | setIconFromBytes b => simpa [specFns, itemCount] using ih base
    | setTip t => simpa [specFns, itemCount] using ih base
    | addMenuSeparator => simpa [specFns, itemCount] using ih base
    | showNotification info title => simpa [specFns, itemCount] using ih base

theorem pumpEvent_of_native (e : NEvent) (h : isNativeCall e = true) :
    pumpEvent e = true := by
  cases e <;> first | rfl | exact h

theorem pump_events (msgs : List Msg) : ∀ (s : TrayState),
    ∀ e ∈ (pump s msgs).2.1, pumpEvent e = true := by
  induction msgs with
  | nil =>
    intro s e he
    rw [pump_nil_eq] at he
    simp at he
  | cons m rest ih =>
    intro s e he
    cases m with
    | quit =>
      rw [pump_quit_eq] at he
      simp at he
    | app r o =>
      rw [pump_app_trace] at he
      rcases List.mem_append.mp he with h | h
      · rcases List.mem_cons.mp h with h2 | h2
        · simp [h2, pumpEvent]
        · rcases List.mem_append.mp h2 with h3 | h3
          · exact pumpEvent_of_native e (handleRequest_events o s r e h3)
          · simp only [List.mem_singleton] at h3
            simp [h3, pumpEvent]
      · exact ih _ e h

theorem pump_app_quit (input : List (Request × Oracle)) : ∀ (s : TrayState),
    (pump s (input.map (fun ro => Msg.app ro.1 ro.2) ++ [Msg.quit])).2.2 = true
    ∧ NEvent.shellDelete ∉
        (pump s (input.map (fun ro => Msg.app ro.1 ro.2) ++ [Msg.quit])).2.1
    ∧ NEvent.closedSignal ∉
        (pump s (input.map (fun ro => Msg.app ro.1 ro.2) ++ [Msg.quit])).2.1 := by
  induction input with
  | nil =>
    intro s
    refine ⟨rfl, ?_, ?_⟩ <;>
    · rw [List.map_nil, List.nil_append, pump_quit_eq]
      simp
  | cons ro rest ih =>
    intro s
    obtain ⟨hdone, hnd, hnc⟩ := ih (handleRequest ro.2 s ro.1).2.1
    simp only [List.map_cons, List.cons_append]
    refine ⟨?_, ?_, ?_⟩
    · rw [pump_app_done]
      exact hdone
    · rw [pump_app_trace]
      intro hmem
      rcases List.mem_append.mp hmem with h | h
      · rcases List.mem_cons.mp h with h2 | h2
        · exact absurd h2 (by simp)
        · rcases List.mem_append.mp h2 with h3 | h3
          · have := handleRequest_events ro.2 s ro.1 _ h3
            simp [isNativeCall] at this
          · simp at h3
      · exact hnd h
    · rw [pump_app_trace]
      intro hmem
      rcases List.mem_append.mp hmem with h | h
      · rcases List.mem_cons.mp h with h2 | h2
        · exact absurd h2 (by simp)
        · rcases List.mem_append.mp h2 with h3 | h3
          · have := handleRequest_events ro.2 s ro.1 _ h3
            simp [isNativeCall] at this
          · simp at h3
      · exact hnc h

/-- C2 (the code evaluated at the failing input): `Close` posts `WM_QUIT`;
`GetMessage` returns zero when it retrieves it, so the pump exits its loop
without dispatching the message — the `WM_QUIT` case of `wndProc`
(`destroyTrayIcon`, the `NIM_DELETE`) is unreachable, no shell-delete call
ever appears in the trace, and the tray icon is not removed from the shell;
the deferred `close(closedChan)` still fires exactly once after the loop
exits, so `Close` unblocks exactly once and cannot fail. -/
theorem close_shutdown (s : TrayState) (input : List (Request × Oracle)) :
    (runEvents s (input.map (fun ro => Msg.app ro.1 ro.2) ++ [Msg.quit])).2.2 = true
    ∧ (∃ pre, (runEvents s (input.map (fun ro => Msg.app ro.1 ro.2) ++ [Msg.quit])).2.1
          = pre ++ [NEvent.closedSignal]
        ∧ NEvent.closedSignal ∉ pre)
    ∧ (runEvents s (input.map (fun ro => Msg.app ro.1 ro.2)
        ++ [Msg.quit])).2.1.count NEvent.closedSignal = 1
    ∧ NEvent.shellDelete ∉ (runEvents s (input.map (fun ro => Msg.app ro.1 ro.2)
        ++ [Msg.quit])).2.1 := by
  obtain ⟨hdone, hnd, hnc⟩ := pump_app_quit input s
  have htrace : (runEvents s (input.map (fun ro => Msg.app ro.1 ro.2)
      ++ [Msg.quit])).2.1 =
      ([NEvent.registerClass, NEvent.createWindow, NEvent.shellAdd, NEvent.setVersion,
        NEvent.sendHwnd] ++ (pump s (input.map (fun ro => Msg.app ro.1 ro.2)
        ++ [Msg.quit])).2.1) ++ [NEvent.closedSignal] := by
    simp only [runEvents, hdone, if_true, List.append_assoc]
  refine ⟨by simp only [runEvents]; exact hdone, ⟨_, htrace, ?_⟩, ?_, ?_⟩
  · intro hmem
    rcases List.mem_append.mp hmem with h | h
    · simp at h
    · exact hnc h
  · rw [htrace, List.count_append, List.count_append]
    rw [List.count_eq_zero_of_not_mem (by simp),
      List.count_eq_zero_of_not_mem hnc]
    rfl
  · rw [htrace]
    intro hmem
    rcases List.mem_append.mp hmem with h | h
    · rcases List.mem_append.mp h with h2 | h2
      · simp at h2
      · exact hnd h2
    · simp at h

/-- C4: each public operation's caller posts exactly one wake-up message and
then enqueues exactly one request before blocking on the response channel;
the pump's trace decomposes into one contiguous block per request — a single
dequeue, the request's native calls, and a single response sent back before
the pump resumes — so requests are serialized with at most one in flight at
a time, and exactly one outcome is delivered per request. -/
theorem request_response_discipline (r : Request) (s : TrayState)
    (input : List (Request × Oracle)) :
    publicOpCallerEvents r =
      [CallerEvent.postWakeup, CallerEvent.enqueue r, CallerEvent.awaitResponse]
    ∧ (publicOpCallerEvents r).count CallerEvent.postWakeup = 1
    ∧ (publicOpCallerEvents r).count (CallerEvent.enqueue r) = 1
    ∧ (∃ blocks : List (List NEvent),
        (processAll s input).2.1 = blocks.flatten
        ∧ blocks.length = input.length
        ∧ ∀ b ∈ blocks, ∃ ev ok, b = NEvent.dequeue :: (ev ++ [NEvent.respond ok])
            ∧ NEvent.dequeue ∉ ev ∧ (∀ c, NEvent.respond c ∉ ev))
    ∧ (processAll s input).2.2.length = input.length := by
  refine ⟨rfl, by simp [publicOpCallerEvents], by simp [publicOpCallerEvents], ?_, ?_⟩
  · clear r
    induction input generalizing s with
    | nil => exact ⟨[], rfl, rfl, by intro b hb; simp at hb⟩
    | cons ro rest ih =>
      obtain ⟨blocks, hjoin, hlen, hshape⟩ := ih (handleRequest ro.2 s ro.1).2.1
      refine ⟨(NEvent.dequeue :: ((handleRequest ro.2 s ro.1).2.2
        ++ [NEvent.respond (resultBit (handleRequest ro.2 s ro.1).1)])) :: blocks,
        ?_, by simp [hlen], ?_⟩
      · rw [processAll_cons_trace, hjoin]
        rfl
      · intro b hb
        rcases List.mem_cons.mp hb with h | h
        · refine ⟨(handleRequest ro.2 s ro.1).2.2,
            resultBit (handleRequest ro.2 s ro.1).1, h, ?_, ?_⟩
          · intro hmem
            have := handleRequest_events ro.2 s ro.1 _ hmem
            simp [isNativeCall] at this
          · intro c hmem
            have := handleRequest_events ro.2 s ro.1 _ hmem
            simp [isNativeCall] at this
        · exact hshape b h
  · clear r
    induction input generalizing s with
    | nil => rfl
    | cons ro rest ih =>
      rw [processAll_cons_responses, List.length_cons, ih, List.length_cons]

/-- C8: the actor's trace starts with class registration and the creation of
the hidden window — whose `WM_CREATE` handler installs the tray entry and
sets the notify-icon version — followed by the one-shot `hwndChan` rendezvous
that unblocks the constructor; the rendezvous happens exactly once, strictly
after the window exists, and every pump event comes after it, so `New`
returns no handle before the window exists and the pump starts only after
the rendezvous. -/
theorem constructor_rendezvous (s : TrayState) (msgs : List Msg) :
    ∃ rest, (runEvents s msgs).2.1 =
        [NEvent.registerClass, NEvent.createWindow, NEvent.shellAdd,
         NEvent.setVersion, NEvent.sendHwnd] ++ rest
      ∧ NEvent.sendHwnd ∉ rest
      ∧ NEvent.createWindow ∉ rest
      ∧ (runEvents s msgs).2.1.count NEvent.sendHwnd = 1
      ∧ (runEvents s msgs).2.1.count NEvent.createWindow = 1
      ∧ ∀ e ∈ rest, e = NEvent.closedSignal ∨ pumpEvent e = true := by
  have hns : NEvent.sendHwnd ∉ (pump s msgs).2.1 := by
    intro hmem
    have := pump_events msgs s _ hmem
    simp [pumpEvent, isNativeCall] at this
  have hnw : NEvent.createWindow ∉ (pump s msgs).2.1 := by
    intro hmem
    have := pump_events msgs s _ hmem
    simp [pumpEvent, isNativeCall] at this
  refine ⟨(pump s msgs).2.1 ++ (if (pump s msgs).2.2 then [NEvent.closedSignal] else []),
    ?_, ?_, ?_, ?_, ?_, ?_⟩
  · simp only [runEvents, List.append_assoc]
  · intro hmem
    rcases List.mem_append.mp hmem with h | h
    · exact hns h
    · split at h <;> simp at h
  · intro hmem
    rcases List.mem_append.mp hmem with h | h
    · exact hnw h
    · split at h <;> simp at h
  · simp only [runEvents]
    rw [List.count_append, List.count_append]
    rw [List.count_eq_zero_of_not_mem hns]
    have h2 : (if (pump s msgs).2.2 then [NEvent.closedSignal] else []).count
        NEvent.sendHwnd = 0 := by
      split <;> simp
    rw [h2]
    rfl
  · simp only [runEvents]
    rw [List.count_append, List.count_append]
    rw [List.count_eq_zero_of_not_mem hnw]
    have h2 : (if (pump s msgs).2.2 then [NEvent.closedSignal] else []).count
        NEvent.createWindow = 0 := by
      split <;> simp
    rw [h2]
    rfl
  · intro e hmem
    rcases List.mem_append.mp hmem with h | h
    · exact Or.inr (pump_events msgs s _ h)
    · split at h
      · simp only [List.mem_singleton] at h
        exact Or.inl h
      · simp at h


/-- The §8 example scenario: Print, Quit, a separator, About. -/
theorem menu_append_order_ids (input : List (Request × Oracle))
    (hcount : 100 + itemCount input < U32) :
    assignedIds (processAll initialState input).1 =
      (List.range (itemCount input)).map (fun k => 100 + k)
    ∧ List.Chain' (· < ·) (assignedIds (processAll initialState input).1)
    ∧ (assignedIds (processAll initialState input).1).Nodup
    ∧ (∀ i ∈ assignedIds (processAll initialState input).1, 100 ≤ i)
    ∧ (processAll initialState input).1.menu = specMenu 100 input := by
  obtain ⟨h1, h2, h3⟩ := processAll_menu_state input initialState
    (by simpa [initialState] using hcount)
  have hids : assignedIds (processAll initialState input).1 =
      (List.range (itemCount input)).map (fun k => 100 + k) := by
    rw [assignedIds, h2]
    simp only [initialState, List.append_nil]
    rw [List.map_reverse, List.reverse_reverse, specFns_ids]
  refine ⟨hids, ?_, ?_, ?_, ?_⟩
  · rw [hids, List.chain'_iff_pairwise, List.pairwise_map]
    exact (List.pairwise_lt_range _).imp (fun hab => by omega)
  · rw [hids]
    refine (List.nodup_range _).map ?_
    intro a b hab
    dsimp only at hab
    omega
  · rw [hids]
    intro i hi
    obtain ⟨k, _, rfl⟩ := List.mem_map.mp hi
    omega
  · rw [h3]
    simp [initialState]

theorem menu_append_order_ids_witness :
    100 + itemCount exInput < U32 ∧
    (assignedIds (processAll initialState exInput).1 =
        (List.range (itemCount exInput)).map (fun k => 100 + k)
      ∧ List.Chain' (· < ·) (assignedIds (processAll initialState exInput).1)
      ∧ (assignedIds (processAll initialState exInput).1).Nodup
      ∧ (∀ i ∈ assignedIds (processAll initialState exInput).1, 100 ≤ i)
      ∧ (processAll initialState exInput).1.menu = specMenu 100 exInput) :=
  ⟨by decide, menu_append_order_ids exInput (by decide)⟩

theorem processAll_replicate_fns (n : Nat) : ∀ (s : TrayState), s.menuIds < U32 →
    (processAll s (List.replicate n (Request.addMenuItem [] 0, okOracle))).1.menuFns
      = ((List.range n).map (fun k => ((s.menuIds + k) % U32, 0))).reverse
        ++ s.menuFns := by
  induction n with
  | zero =>
    intro s hs
    simp [processAll_nil_eq]
  | succ n ih =>
    intro s hs
    rw [List.replicate_succ, processAll_cons_state]
    have hs1 : (handleRequest okOracle s (Request.addMenuItem [] 0)).2.1 =
        { s with menuIds := (s.menuIds + 1) % U32
                 menuFns := (s.menuIds, 0) :: s.menuFns
                 menu := s.menu ++ [MenuEntry.item s.menuIds []] } := by
      simp [handleRequest, newMenuId, okOracle]
    rw [hs1]
    rw [ih _ (Nat.mod_lt _ (by norm_num [U32]))]
    have hfun : (fun k => (((s.menuIds + 1) % U32 + k) % U32, (0 : Nat))) =
        (fun k => ((s.menuIds + (k + 1)) % U32, (0 : Nat))) := by
      funext k
      rw [Nat.mod_add_mod]
      congr 2
      omega
    simp only [hfun]
    rw [List.range_succ_eq_map, List.map_cons, List.map_map, List.reverse_cons]
    have hzero : ((s.menuIds + 0) % U32, (0 : Nat)) = (s.menuIds, 0) := by
      rw [Nat.add_zero, Nat.mod_eq_of_lt hs]
    have hcomp : ((fun k => ((s.menuIds + k) % U32, (0 : Nat))) ∘ Nat.succ) =
        (fun k => ((s.menuIds + (k + 1)) % U32, (0 : Nat))) := by
      funext k
      simp only [Function.comp_apply]
    rw [hzero, hcomp, List.append_assoc]
    rfl

theorem assignedIds_cxInput :
    assignedIds (processAll initialState cxInput).1 =
      (List.range (U32 - 99)).map (fun k => (100 + k) % U32) := by
  have h := processAll_replicate_fns (U32 - 99) initialState (by norm_num [initialState, U32])
  have hcx : cxInput = List.replicate (U32 - 99) (Request.addMenuItem [] 0, okOracle) := rfl
  rw [assignedIds, hcx, h]
  simp only [initialState, List.append_nil, List.map_reverse, List.reverse_reverse,
    List.map_map]
  rfl

/-- C1 counterexample: after 2^32 − 99 `AddMenuItem` calls the uint32 counter
has wrapped — the identifier assigned by the last call is 0, smaller than its
predecessor 2^32 − 1 — so the sequence of identifiers assigned by
`AddMenuItem` is not monotonically increasing as the claim states for every
call sequence. -/
theorem menu_ids_wrap_cx :
    ¬ List.Chain' (· < ·) (assignedIds (processAll initialState cxInput).1) := by
  rw [assignedIds_cxInput, List.chain'_iff_pairwise, List.pairwise_map]
  intro hpw
  have hlen : (List.range (U32 - 99)).length = U32 - 99 := List.length_range _
  have hi : U32 - 101 < (List.range (U32 - 99)).length := by
    rw [hlen]; simp only [U32]; omega
  have hj : U32 - 100 < (List.range (U32 - 99)).length := by
    rw [hlen]; simp only [U32]; omega
  have hget := List.pairwise_iff_get.mp hpw ⟨U32 - 101, hi⟩ ⟨U32 - 100, hj⟩
    (by simp only [Fin.mk_lt_mk, U32]; omega)
  simp only [List.get_eq_getElem, List.getElem_range] at hget
  have hv1 : (100 + (U32 - 101)) % U32 = U32 - 1 := by
    rw [show 100 + (U32 - 101) = U32 - 1 by simp only [U32]; omega]
    exact Nat.mod_eq_of_lt (by simp only [U32]; omega)
  have hv2 : (100 + (U32 - 100)) % U32 = 0 := by
    rw [show 100 + (U32 - 100) = U32 by simp only [U32]; omega]
    exact Nat.mod_self U32
  rw [hv1, hv2] at hget
  exact absurd hget (by omega)

theorem close_shutdown_witness :
    (runEvents initialState
      ([(Request.setTip [72], okOracle)].map (fun ro => Msg.app ro.1 ro.2)
        ++ [Msg.quit])).2.2 = true
    ∧ NEvent.shellDelete ∉ (runEvents initialState
      ([(Request.setTip [72], okOracle)].map (fun ro => Msg.app ro.1 ro.2)
        ++ [Msg.quit])).2.1 :=
  ⟨(close_shutdown initialState [(Request.setTip [72], okOracle)]).1,
   (close_shutdown initialState [(Request.setTip [72], okOracle)]).2.2.2⟩

theorem request_response_discipline_witness :
    (processAll initialState [(Request.setTip [72], okOracle)]).2.2.length
      = [(Request.setTip [72], okOracle)].length :=
  (request_response_discipline Request.addMenuSeparator initialState
    [(Request.setTip [72], okOracle)]).2.2.2.2

theorem constructor_rendezvous_witness :
    (runEvents initialState [Msg.quit]).2.1.count NEvent.sendHwnd = 1 := by
  obtain ⟨rest, h1, h2, h3, h4, h5, h6⟩ :=
    constructor_rendezvous initialState [Msg.quit]
  exact h4

end WinTray
